import Mathlib

/-!
Shallow embedding of the poker hand evaluation library (Trungkien03/poker-hand-logic).

The repository contains two variants of its source files.  The primary embedding
below follows the `CardData` variant (`src/utils.ts` lines 1-154 together with the
matching `evaluate.ts`), in which a card stores its rank (2..14) and suit (1..4)
directly and `getActualRank` is the identity.  The second variant stores the full
numeric card code in the `cardRank` field and extracts the rank with `% 1000`; its
comparator inspects only the highest card.  The second variant's comparator and
card codec are embedded separately with a `V2` suffix (Lean does not allow two
top-level definitions with the source's shared names).

JavaScript exceptions are modelled with `Except EvalError`; each constructor of
`EvalError` corresponds to one `throw` site.  `Array.prototype.sort` (stable in
modern engines) is modelled with the stable `List.insertionSort`.
-/

namespace Poker

/-- Card of the primary (`CardData`) variant: rank 2..14, suit 1..4. -/
structure CardData where
  rank : Nat
  suit : Nat
deriving DecidableEq, Repr

/-- Card of the second variant: `cardRank` holds the full numeric card code
(`suit * 1000 + rank`), `cardSuit` the suit. -/
structure Card where
  cardRank : Nat
  cardSuit : Nat
deriving DecidableEq, Repr

/-- Error taxonomy: one constructor per `throw` site reached by the embedded code. -/
inductive EvalError where
  | invalidCardCode
  | invalidCardObject
  | invalidCardAt (index : Nat)
  | invalidCardCount
  | duplicateCard (code : Nat)
  | noValidHand
  | emptyPlayers
deriving DecidableEq, Repr

instance exceptDecEq {ε α : Type} [DecidableEq ε] [DecidableEq α] : DecidableEq (Except ε α)
  | .error e, .error f =>
    if h : e = f then isTrue (by rw [h]) else isFalse (by intro hh; cases hh; exact h rfl)
  | .error _, .ok _ => isFalse (by intro h; cases h)
  | .ok _, .error _ => isFalse (by intro h; cases h)
  | .ok a, .ok b =>
    if h : a = b then isTrue (by rw [h]) else isFalse (by intro hh; cases hh; exact h rfl)

/-- `getActualRank` (utils.ts:37-39, first variant): the identity on ranks. -/
def getActualRank (rank : Nat) : Nat := rank

/-- `getActualRank` (utils.ts second variant): extracts the rank from a card code. -/
def getActualRankV2 (cardCode : Nat) : Nat := cardCode % 1000

/-- `isValidCard` (utils.ts:19-30): rank in [2,14] and suit in [1,4]. -/
def isValidCard (card : CardData) : Bool :=
  2 ≤ getActualRank card.rank && getActualRank card.rank ≤ 14 &&
    1 ≤ card.suit && card.suit ≤ 4

/-- `isValidCard` of the second variant (rank via `% 1000`). -/
def isValidCardV2 (card : Card) : Bool :=
  2 ≤ getActualRankV2 card.cardRank && getActualRankV2 card.cardRank ≤ 14 &&
    1 ≤ card.cardSuit && card.cardSuit ≤ 4

/-- `convertToCard` (utils.ts:3-10): decode `suit*1000 + rank`, rejecting
out-of-range components.  Card codes are natural numbers. -/
def convertToCard (cardCode : Nat) : Except EvalError CardData :=
  let suit := cardCode / 1000
  let rank := cardCode % 1000
  if rank < 2 || rank > 14 || suit < 1 || suit > 4 then
    .error .invalidCardCode
  else
    .ok { rank := rank, suit := suit }

/-- `convertToCardCode` (utils.ts:12-17). -/
def convertToCardCode (card : CardData) : Except EvalError Nat :=
  if !isValidCard card then .error .invalidCardObject
  else .ok (card.suit * 1000 + card.rank)

/-- `convertToCard` of the second variant (utils.ts:166-173): the returned card
keeps the whole code in `cardRank`. -/
def convertToCardV2 (cardCode : Nat) : Except EvalError Card :=
  let cardSuit := cardCode / 1000
  let cardRank := cardCode % 1000
  if cardRank < 2 || cardRank > 14 || cardSuit < 1 || cardSuit > 4 then
    .error .invalidCardCode
  else
    .ok { cardRank := cardCode, cardSuit := cardSuit }

/-- `convertToCardCode` of the second variant (utils.ts:184-189). -/
def convertToCardCodeV2 (card : Card) : Except EvalError Nat :=
  if !isValidCardV2 card then .error .invalidCardObject
  else .ok card.cardRank

/-- Comparator handed to `Array.prototype.sort` in `sortCardsByRank`
(utils.ts:41-47): descending by rank. -/
def rankDescLe (a b : CardData) : Prop :=
  getActualRank b.rank ≤ getActualRank a.rank

instance : DecidableRel rankDescLe := fun a b =>
  inferInstanceAs (Decidable (getActualRank b.rank ≤ getActualRank a.rank))

/-- `sortCardsByRank` (utils.ts:41-47): stable sort, rank descending.
`Array.prototype.sort` is stable in modern engines; every stable sort computes
the same list for this total comparator, so it is modelled with the
structurally recursive `List.insertionSort`. -/
def sortCardsByRank (cards : List CardData) : List CardData :=
  cards.insertionSort rankDescLe

/-- The rank projection `cards.map((card) => getActualRank(card.rank))`, used
by `isStraight`, `compareHandValues` and `getRankCountsAndKickers`. -/
def cardRanks (cards : List CardData) : List Nat :=
  cards.map (fun card => getActualRank card.rank)

/-- `isFlush` (utils.ts:49-52).  On the empty array the source's `every` is
vacuously true, so the result is `true`. -/
def isFlush (cards : List CardData) : Bool :=
  match cards with
  | [] => true
  | first :: _ => cards.all (fun card => card.suit == first.suit)

/-- The loop of `isStraight` (utils.ts:62-66): each rank exceeds its successor
by exactly 1. -/
def consecutiveDesc : List Nat → Bool
  | [] => true
  | [_] => true
  | a :: b :: rest => (a == b + 1) && consecutiveDesc (b :: rest)

/-- `isStraight` (utils.ts:54-68): the wheel `[14,5,4,3,2]`, or consecutive
descending ranks. -/
def isStraight (cards : List CardData) : Bool :=
  let ranks := cardRanks (sortCardsByRank cards)
  if ranks == [14, 5, 4, 3, 2] then true
  else consecutiveDesc ranks

/-- The fixed suit priority map (utils.ts:99-104): Hearts > Diamonds > Clubs >
Spades.  The source object has no entry for other values (JavaScript would
yield `undefined`); in-repo callers only reach it with suits 1..4. -/
def suitOrder (suit : Nat) : Int :=
  match suit with
  | 1 => 4
  | 2 => 3
  | 3 => 2
  | 4 => 1
  | _ => 0

/-- The pairwise rank walk of `compareHandValues` (utils.ts:87-93): runs over
the common prefix, answering at the first index where the ranks differ. -/
def walkRanks : List Nat → List Nat → Option Int
  | rank1 :: rest1, rank2 :: rest2 =>
    if rank1 ≠ rank2 then some (if rank1 > rank2 then 1 else -1)
    else walkRanks rest1 rest2
  | _, _ => none

/-- `compareHandValues` (utils.ts:76-109, first variant): sort both hands rank
descending, walk the ranks pairwise, then break the remaining tie by the suit
of each hand's highest card.  The source reads `sortedCards[0].suit`
unconditionally and would fault on an empty hand; the model returns 0 there
(no in-repo caller compares an empty hand against a non-empty one). -/
def compareHandValues (cards1 cards2 : List CardData) : Int :=
  let sorted1 := sortCardsByRank cards1
  let sorted2 := sortCardsByRank cards2
  match walkRanks (cardRanks sorted1) (cardRanks sorted2) with
  | some v => v
  | none =>
    match sorted1, sorted2 with
    | c1 :: _, c2 :: _ =>
      if c1.suit ≠ c2.suit then suitOrder c1.suit - suitOrder c2.suit else 0
    | _, _ => 0

/-- `compareHandValues` of the second variant (utils.ts:271-292): compares only
the first (highest) card's rank, then its suit.  The source reads `cards1[0]`
unconditionally; the model returns 0 on an empty hand. -/
def compareHandValuesV2 (cards1 cards2 : List Card) : Int :=
  match cards1, cards2 with
  | card1 :: _, card2 :: _ =>
    let rank1 := getActualRankV2 card1.cardRank
    let rank2 := getActualRankV2 card2.cardRank
    if rank1 > rank2 then 1
    else if rank1 < rank2 then -1
    else if card1.cardSuit ≠ card2.cardSuit then
      suitOrder card1.cardSuit - suitOrder card2.cardSuit
    else 0
  | _, _ => 0

/-- Multiplicity of one rank in the `rankCounts` table (utils.ts:115-119). -/
def rankCount (cards : List CardData) (rank : Nat) : Nat :=
  (cardRanks cards).count rank

/-- `Object.entries(rankCounts)`: JavaScript enumerates integer-like object
keys in ascending numeric order, so the entry list is the distinct ranks in
ascending order, each paired with its count. -/
def rankCountEntries (cards : List CardData) : List (Nat × Nat) :=
  (((cardRanks cards).dedup).insertionSort (· ≤ ·)).map
    (fun rank => (rank, rankCount cards rank))

/-- The `kickers` component of `getRankCountsAndKickers` (utils.ts:121-125):
ranks appearing exactly once, sorted descending. -/
def kickersOf (cards : List CardData) : List Nat :=
  (((rankCountEntries cards).filter (fun e => e.2 == 1)).map (fun e => e.1)).insertionSort
    (fun a b => b ≤ a)

/-- The `pairs` list of `evaluateHandRank`: ranks with count exactly 2, sorted
descending. -/
def pairsOf (cards : List CardData) : List Nat :=
  (((rankCountEntries cards).filter (fun e => e.2 == 2)).map (fun e => e.1)).insertionSort
    (fun a b => b ≤ a)

/-- Truthiness of `Object.entries(rankCounts).find(([_, count]) => count === n)?.[0]`:
some rank occurs exactly `n` times. -/
def hasRankWithCount (cards : List CardData) (n : Nat) : Bool :=
  ((rankCountEntries cards).find? (fun e => e.2 == n)).isSome

/-- The recursive `combine` closure of `getCombinations` (utils.ts:139-150),
functionally: all ways to pick `size` elements from the remaining suffix,
keeping their relative order, enumerated taking-the-head-first (the source
loop starts at index `start`). -/
def combinationsAux {α : Type} : Nat → List α → List (List α)
  | 0, _ => [[]]
  | _ + 1, [] => []
  | k + 1, x :: xs =>
    (combinationsAux k xs).map (fun c => x :: c) ++ combinationsAux (k + 1) xs

/-- `getCombinations` (utils.ts:136-154).  The source annotates card arrays but
its body is type-agnostic; it is kept polymorphic so the index-order property
can be stated over `List.range`. -/
def getCombinations {α : Type} (cards : List α) (size : Nat) : List (List α) :=
  combinationsAux size cards

/-- Result record of `evaluateHandRank` (the `HandRankEvaluation` interface). -/
structure HandRankEvaluation where
  handRankTitle : String
  handRankLevel : Nat
  handRankDescription : String
  rankingCards : List CardData
deriving DecidableEq, Repr

/-- Result record of `getBestHandCombination` (the `HandRankResult` interface). -/
structure HandRankResult where
  handRankTitle : String
  handRankLevel : Nat
  handRankDescription : String
  bestFiveCards : List CardData
deriving DecidableEq, Repr

/-- The per-card validation `forEach` of `evaluateHandRank`: first invalid card
aborts with its index. -/
def validateCards : List CardData → Nat → Except EvalError Unit
  | [], _ => .ok ()
  | card :: rest, index =>
    if !isValidCard card then .error (.invalidCardAt index)
    else validateCards rest (index + 1)

/-- `evaluateHandRank` (evaluate.ts): validate every card, then run the ordered
rule table — the degenerate branch for fewer than five cards, the full table
for five. -/
def evaluateHandRank (cards : List CardData) : Except EvalError HandRankEvaluation :=
  match validateCards cards 0 with
  | .error e => .error e
  | .ok _ =>
  let sortedCards := sortCardsByRank cards
  if cards.length < 5 then
    if hasRankWithCount cards 4 then
      .ok ⟨"Four of a Kind", 3, "Four cards of the same rank.", sortedCards⟩
    else if hasRankWithCount cards 3 then
      .ok ⟨"Three of a Kind", 7, "Three cards of the same rank.", sortedCards⟩
    else if (pairsOf cards).length > 0 then
      .ok ⟨"One Pair", 9, "Two cards of the same rank.", sortedCards⟩
    else
      .ok ⟨"High Card", 10, "If no other hand is made, the highest card plays.", sortedCards⟩
  else
    let isFlushResult := isFlush cards
    let isStraightResult := isStraight cards
    if isFlushResult && isStraightResult &&
        cards.any (fun card => getActualRank card.rank == 14) &&
        cards.any (fun card => getActualRank card.rank == 13) then
      .ok ⟨"Royal Flush", 1, "A, K, Q, J, 10 of the same suit.", sortedCards⟩
    else if isFlushResult && isStraightResult then
      .ok ⟨"Straight Flush", 2, "Five cards in rank sequence, all of the same suit", sortedCards⟩
    else if hasRankWithCount cards 4 then
      .ok ⟨"Four of a Kind", 3, "Four cards of the same rank.", sortedCards⟩
    else if hasRankWithCount cards 3 && hasRankWithCount cards 2 then
      .ok ⟨"Full House", 4, "Three of a kind and a pair.", sortedCards⟩
    else if isFlushResult then
      .ok ⟨"Flush", 5, "Five cards of the same suit, not in a sequence.", sortedCards⟩
    else if isStraightResult then
      .ok ⟨"Straight", 6, "Five cards in rank sequence, not all of the same suit.", sortedCards⟩
    else if hasRankWithCount cards 3 then
      .ok ⟨"Three of a Kind", 7, "Three cards of the same rank.", sortedCards⟩
    else if (pairsOf cards).length == 2 then
      .ok ⟨"Two Pair", 8, "Two pairs of the same rank.", sortedCards⟩
    else if (pairsOf cards).length == 1 then
      .ok ⟨"One Pair", 9, "Two cards of the same rank.", sortedCards⟩
    else
      .ok ⟨"High Card", 10, "If no other hand is made, the highest card plays.", sortedCards⟩

/-- The validation/duplicate `forEach` of `getBestHandCombination`: per card,
first the validity check, then membership in the set of keys seen so far (the
key `rank-suit` identifies a card exactly).  The duplicate error carries
`convertToCardCode(card)`, which for an already-validated card is
`suit * 1000 + rank`. -/
def validateAndCheckDuplicates : List CardData → Nat → List CardData → Except EvalError Unit
  | [], _, _ => .ok ()
  | card :: rest, index, seen =>
    if !isValidCard card then .error (.invalidCardAt index)
    else if seen.contains card then .error (.duplicateCard (card.suit * 1000 + card.rank))
    else validateAndCheckDuplicates rest (index + 1) (seen ++ [card])

/-- The selection loop of `getBestHandCombination` over the 5-card
combinations: keep the strictly better evaluation; a combination whose
evaluation throws is logged and skipped. -/
def foldBest : List (List CardData) → Option HandRankEvaluation → Option HandRankEvaluation
  | [], best => best
  | combination :: rest, best =>
    match evaluateHandRank combination with
    | .error _ => foldBest rest best
    | .ok evaluation =>
      match best with
      | none => foldBest rest (some evaluation)
      | some b =>
        if evaluation.handRankLevel < b.handRankLevel then
          foldBest rest (some evaluation)
        else if evaluation.handRankLevel == b.handRankLevel &&
            compareHandValues evaluation.rankingCards b.rankingCards > 0 then
          foldBest rest (some evaluation)
        else
          foldBest rest (some b)

/-- `getBestHandCombination` (evaluate.ts): sentinel results for 0 or 1 cards,
count bound, validation and duplicate rejection, then direct evaluation
(&lt;5 cards) or the best 5-card combination. -/
def getBestHandCombination (cards : List CardData) : Except EvalError HandRankResult :=
  if cards.length == 0 then
    .ok ⟨"No Hand", 0, "No hand is made.", []⟩
  else if cards.length < 2 then
    .ok ⟨"High Card", 10, "If no other hand is made, the highest card plays.", cards⟩
  else if cards.length > 10 then
    .error .invalidCardCount
  else
    match validateAndCheckDuplicates cards 0 [] with
    | .error e => .error e
    | .ok _ =>
      if cards.length < 5 then
        match evaluateHandRank cards with
        | .error e => .error e
        | .ok evaluation =>
          .ok ⟨evaluation.handRankTitle, evaluation.handRankLevel,
            evaluation.handRankDescription, evaluation.rankingCards⟩
      else
        match foldBest (getCombinations cards 5) none with
        | none => .error .noValidHand
        | some bestHand =>
          .ok ⟨bestHand.handRankTitle, bestHand.handRankLevel,
            bestHand.handRankDescription, bestHand.rankingCards⟩

/-- Input record of `evaluateWinners` (the `PlayerHand` interface). -/
structure PlayerHand where
  playerID : String
  allCards : List CardData
deriving DecidableEq, Repr

/-- The nested `handRank` record of a player result. -/
structure HandRankInfo where
  handRankTitle : String
  handRankLevel : Nat
deriving DecidableEq, Repr

/-- One element of `playerResults` in `evaluateWinners`. -/
structure PlayerResult where
  playerID : String
  bestCombineCards : List CardData
  allCards : List CardData
  handRank : HandRankInfo
deriving DecidableEq, Repr

/-- Output record of `evaluateWinners` (the `WinnerResult` interface). -/
structure WinnerResult where
  winCount : Nat
  winners : List PlayerResult
deriving DecidableEq, Repr

/-- Step 2 of `evaluateWinners`: best hand per player, in player order.  A
thrown error propagates to the caller, as in the source. -/
def playerResultsOf : List PlayerHand → Except EvalError (List PlayerResult)
  | [] => .ok []
  | player :: rest =>
    match getBestHandCombination player.allCards with
    | .error e => .error e
    | .ok bestHand =>
      match playerResultsOf rest with
      | .error e => .error e
      | .ok results =>
        .ok (⟨player.playerID, bestHand.bestFiveCards, player.allCards,
          ⟨bestHand.handRankTitle, bestHand.handRankLevel⟩⟩ :: results)

/-- The comparator handed to `playerResults.sort`: hand rank level ascending,
then `compareHandValues` on the best cards (better hand first). -/
def playerSortValue (a b : PlayerResult) : Int :=
  if a.handRank.handRankLevel ≠ b.handRank.handRankLevel then
    (a.handRank.handRankLevel : Int) - (b.handRank.handRankLevel : Int)
  else
    compareHandValues b.bestCombineCards a.bestCombineCards

/-- Step 3 of `evaluateWinners`: the stable sort of the player results
(`Array.prototype.sort` modelled, as in `sortCardsByRank`, by the stable
`List.insertionSort`). -/
def sortPlayerResults (results : List PlayerResult) : List PlayerResult :=
  results.insertionSort (fun a b => playerSortValue a b ≤ 0)

/-- Step 4 of `evaluateWinners`: every player at the top level whose best cards
compare equal to the top-ranked player's. -/
def winnersOf (sorted : List PlayerResult) : List PlayerResult :=
  match sorted with
  | [] => []
  | highestHand :: _ =>
    sorted.filter (fun player =>
      player.handRank.handRankLevel == highestHand.handRank.handRankLevel &&
      compareHandValues highestHand.bestCombineCards player.bestCombineCards == 0)

/-- `evaluateWinners` (evaluate.ts): reject an empty player list, compute every
player's best hand, sort, and keep all players tied with the top one. -/
def evaluateWinners (players : List PlayerHand) : Except EvalError WinnerResult :=
  if players.length == 0 then
    .error .emptyPlayers
  else
    match playerResultsOf players with
    | .error e => .error e
    | .ok playerResults =>
      let winners := winnersOf (sortPlayerResults playerResults)
      .ok ⟨winners.length, winners⟩

/-! ## Claim C10: one-card hands bypass validation -/

/-- Claim C10 (confirmed): for every single-element card list — the card's rank
and suit fully unconstrained, in range or not — `getBestHandCombination`
returns the High Card sentinel with level 10 and `bestFiveCards` equal to the
input list; no validation or duplicate check runs and no error is raised. -/
theorem getBestHandCombination_single (card : CardData) :
    getBestHandCombination [card] =
      .ok ⟨"High Card", 10, "If no other hand is made, the highest card plays.", [card]⟩ := rfl

/-! ## Claim C9: the card codec round trip -/

/-- Claim C9 (confirmed): a code whose suit component `code / 1000` lies in
[1,4] and whose rank component `code % 1000` lies in [2,14] decodes (in both
variants) to the card with exactly that suit and rank, and encoding the decoded
card returns the original code; every other code is rejected. -/
theorem convertToCard_roundTrip (code : Nat) :
    ((1 ≤ code / 1000 ∧ code / 1000 ≤ 4 ∧ 2 ≤ code % 1000 ∧ code % 1000 ≤ 14) →
      convertToCard code = .ok ⟨code % 1000, code / 1000⟩ ∧
      convertToCardCode ⟨code % 1000, code / 1000⟩ = .ok code ∧
      convertToCardV2 code = .ok ⟨code, code / 1000⟩ ∧
      getActualRankV2 code = code % 1000 ∧
      convertToCardCodeV2 ⟨code, code / 1000⟩ = .ok code) ∧
    (¬(1 ≤ code / 1000 ∧ code / 1000 ≤ 4 ∧ 2 ≤ code % 1000 ∧ code % 1000 ≤ 14) →
      convertToCard code = .error .invalidCardCode ∧
      convertToCardV2 code = .error .invalidCardCode) := by
  constructor
  · rintro ⟨h1, h2, h3, h4⟩
    have hvalid : isValidCard ⟨code % 1000, code / 1000⟩ = true := by
      simp only [isValidCard, getActualRank, Bool.and_eq_true, decide_eq_true_eq]
      omega
    have hvalid2 : isValidCardV2 ⟨code, code / 1000⟩ = true := by
      simp only [isValidCardV2, getActualRankV2, Bool.and_eq_true, decide_eq_true_eq]
      omega
    refine ⟨?_, ?_, ?_, rfl, ?_⟩
    · simp only [convertToCard]
      split
      · next hc =>
        exfalso
        simp only [Bool.or_eq_true, decide_eq_true_eq] at hc
        omega
      · rfl
    · simp only [convertToCardCode, hvalid, Bool.not_true, Bool.false_eq_true, if_false]
      congr 1
      omega
    · simp only [convertToCardV2]
      split
      · next hc =>
        exfalso
        simp only [Bool.or_eq_true, decide_eq_true_eq] at hc
        omega
      · rfl
    · simp [convertToCardCodeV2, hvalid2]
  · intro h
    constructor
    · simp only [convertToCard]
      split
      · rfl
      · next hc =>
        exfalso
        simp only [Bool.or_eq_true, decide_eq_true_eq, not_or] at hc
        push_neg at hc
        omega
    · simp only [convertToCardV2]
      split
      · rfl
      · next hc =>
        exfalso
        simp only [Bool.or_eq_true, decide_eq_true_eq, not_or] at hc
        push_neg at hc
        omega

/-- Claim C9 witness: concrete instances of the round trip (code 1014, the Ace
of suit 1) and of the rejection (code 5000, suit component 5). -/
theorem convertToCard_roundTrip_witness :
    convertToCard 1014 = .ok ⟨14, 1⟩ ∧
    convertToCardCode ⟨14, 1⟩ = .ok 1014 ∧
    convertToCard 5000 = .error .invalidCardCode :=
  ⟨((convertToCard_roundTrip 1014).1 (by decide)).1,
   ((convertToCard_roundTrip 1014).1 (by decide)).2.1,
   ((convertToCard_roundTrip 5000).2 (by decide)).1⟩

/-! ## Claim C4: the comparator's result range -/

/-- Claim C4 counterexample: on two single-card hands of equal rank whose
suits are 1 and 4, `compareHandValues` returns the suit-priority difference
`4 - 1 = 3`, which is outside `{-1, 0, 1}`. -/
theorem compareHandValues_result_three :
    compareHandValues [⟨14, 1⟩] [⟨14, 4⟩] = 3 ∧
    ¬(compareHandValues [⟨14, 1⟩] [⟨14, 4⟩] = -1 ∨
      compareHandValues [⟨14, 1⟩] [⟨14, 4⟩] = 0 ∨
      compareHandValues [⟨14, 1⟩] [⟨14, 4⟩] = 1) := by decide

/-- Unfolding of the validity predicate. -/
theorem isValidCard_iff (card : CardData) :
    isValidCard card = true ↔
      2 ≤ card.rank ∧ card.rank ≤ 14 ∧ 1 ≤ card.suit ∧ card.suit ≤ 4 := by
  simp [isValidCard, getActualRank, and_assoc]

/-- The stable sort permutes its input. -/
theorem sortCardsByRank_perm (cards : List CardData) :
    (sortCardsByRank cards).Perm cards :=
  List.perm_insertionSort rankDescLe cards

/-- Membership is preserved by the sort. -/
theorem mem_sortCardsByRank {card : CardData} {cards : List CardData} :
    card ∈ sortCardsByRank cards ↔ card ∈ cards :=
  (sortCardsByRank_perm cards).mem_iff

/-- The sort preserves length. -/
theorem length_sortCardsByRank (cards : List CardData) :
    (sortCardsByRank cards).length = cards.length :=
  (sortCardsByRank_perm cards).length_eq

/-- A successful rank walk answers 1 or -1. -/
theorem walkRanks_some : ∀ {r1 r2 : List Nat} {v : Int},
    walkRanks r1 r2 = some v → v = 1 ∨ v = -1
  | a :: as, b :: bs, v, h => by
    by_cases hab : a = b
    · exact walkRanks_some (show walkRanks as bs = some v by simpa [walkRanks, hab] using h)
    · simp only [walkRanks, if_pos hab] at h
      split at h
      · exact Or.inl (Option.some_injective _ h).symm
      · exact Or.inr (Option.some_injective _ h).symm
  | [], _, v, h => by simp [walkRanks] at h
  | _ :: _, [], v, h => by simp [walkRanks] at h

/-- The fixed suit priority lies in [1,4] on valid suits. -/
theorem suitOrder_bounds (suit : Nat) (h1 : 1 ≤ suit) (h4 : suit ≤ 4) :
    1 ≤ suitOrder suit ∧ suitOrder suit ≤ 4 := by
  interval_cases suit <;> decide

/-- Claim C4 (amended): on hands of valid cards the comparator returns an
integer in [-3, 3]; the rank walk contributes only ±1, the suit fall-back a
difference of suit priorities, so the full range {-3..3} — not just
{-1, 0, 1} — occurs (see the counterexample for the value 3). -/
theorem compareHandValues_bounded (cards1 cards2 : List CardData)
    (hv1 : ∀ c ∈ cards1, isValidCard c) (hv2 : ∀ c ∈ cards2, isValidCard c) :
    -3 ≤ compareHandValues cards1 cards2 ∧ compareHandValues cards1 cards2 ≤ 3 := by
  simp only [compareHandValues]
  split
  · next v hw =>
    rcases walkRanks_some hw with h | h <;> subst h <;> exact ⟨by decide, by decide⟩
  · next hw =>
    split
    · next c1 rest1 c2 rest2 heq1 heq2 =>
      have hc1 : c1 ∈ cards1 := by
        have : c1 ∈ sortCardsByRank cards1 := by rw [heq1]; exact List.mem_cons_self _ _
        exact mem_sortCardsByRank.mp this
      have hc2 : c2 ∈ cards2 := by
        have : c2 ∈ sortCardsByRank cards2 := by rw [heq2]; exact List.mem_cons_self _ _
        exact mem_sortCardsByRank.mp this
      have hvc1 := (isValidCard_iff c1).mp (hv1 c1 hc1)
      have hvc2 := (isValidCard_iff c2).mp (hv2 c2 hc2)
      have hb1 := suitOrder_bounds c1.suit hvc1.2.2.1 hvc1.2.2.2
      have hb2 := suitOrder_bounds c2.suit hvc2.2.2.1 hvc2.2.2.2
      split
      · omega
      · exact ⟨by decide, by decide⟩
    · next => exact ⟨by decide, by decide⟩

/-- Claim C4 witness: the bound instantiated at the counterexample hands. -/
theorem compareHandValues_bounded_witness :
    -3 ≤ compareHandValues [⟨14, 1⟩] [⟨14, 4⟩] ∧
      compareHandValues [⟨14, 1⟩] [⟨14, 4⟩] ≤ 3 :=
  compareHandValues_bounded [⟨14, 1⟩] [⟨14, 4⟩] (by decide) (by decide)

/-! ## Claim C1: tie-break depth of the comparator -/

/-- Claim C1 counterexample: the repository's second `compareHandValues`
variant (utils.ts:271-292) decides on the highest card alone.  On the hands
`[A, K]` and `[A, Q]` of suit 1 (rank-descending rank sequences `[14, 13]` and
`[14, 12]`, first differing at index 1 where the first hand is higher) it
returns 0 instead of the 1 demanded by the claim. -/
theorem compareHandValuesV2_topCardOnly :
    compareHandValuesV2 [⟨1014, 1⟩, ⟨1013, 1⟩] [⟨1014, 1⟩, ⟨1012, 1⟩] = 0 ∧
    [getActualRankV2 1014, getActualRankV2 1013] = [14, 13] ∧
    [getActualRankV2 1014, getActualRankV2 1012] = [14, 12] ∧
    (0 : Int) ≠ 1 := by decide

/-- Helper for C1: if the first index at which two rank lists differ (inside
the common prefix) is `i`, the walk answers there, higher rank first. -/
theorem walkRanks_firstDiff : ∀ (i : Nat) (r1 r2 : List Nat),
    i < r1.length → i < r2.length →
    (∀ j, j < i → r1.getD j 0 = r2.getD j 0) →
    r1.getD i 0 ≠ r2.getD i 0 →
    walkRanks r1 r2 = some (if r2.getD i 0 < r1.getD i 0 then 1 else -1)
  | 0, a :: _, b :: _, _, _, _, hne => by
    simp only [List.getD_cons_zero] at hne ⊢
    simp only [walkRanks, if_pos hne]
  | i + 1, a :: as, b :: bs, hi1, hi2, hpre, hne => by
    have hab : a = b := by
      have := hpre 0 (Nat.succ_pos i)
      simpa using this
    have heq : walkRanks (a :: as) (b :: bs) = walkRanks as bs := by
      simp [walkRanks, hab]
    rw [heq]
    simp only [List.getD_cons_succ] at hne ⊢
    exact walkRanks_firstDiff i as bs (by simpa using hi1) (by simpa using hi2)
      (fun j hj => by simpa using hpre (j + 1) (by omega)) hne
  | 0, [], _, hi1, _, _, _ => absurd hi1 (by simp)
  | 0, _ :: _, [], _, hi2, _, _ => absurd hi2 (by simp)
  | _ + 1, [], _, hi1, _, _, _ => absurd hi1 (by simp)
  | _ + 1, _ :: _, [], _, hi2, _, _ => absurd hi2 (by simp)

/-- Claim C1 (amended): the first-variant comparator (utils.ts:76-109) walks
the two rank-descending sequences pairwise and at the first index where the
ranks differ the hand with the higher rank wins, however deep that index is;
the second variant (utils.ts:271-292) instead decides on the highest card
alone (see the counterexample). -/
theorem compareHandValues_walks (cards1 cards2 : List CardData) (i : Nat)
    (hi1 : i < (cardRanks (sortCardsByRank cards1)).length)
    (hi2 : i < (cardRanks (sortCardsByRank cards2)).length)
    (hpre : ∀ j, j < i → (cardRanks (sortCardsByRank cards1)).getD j 0 =
      (cardRanks (sortCardsByRank cards2)).getD j 0)
    (hne : (cardRanks (sortCardsByRank cards1)).getD i 0 ≠
      (cardRanks (sortCardsByRank cards2)).getD i 0) :
    compareHandValues cards1 cards2 =
      if (cardRanks (sortCardsByRank cards2)).getD i 0 <
          (cardRanks (sortCardsByRank cards1)).getD i 0 then 1 else -1 := by
  have h := walkRanks_firstDiff i _ _ hi1 hi2 hpre hne
  simp only [compareHandValues]
  rw [h]

/-- Claim C1 witness: hands with equal top rank 14 whose sorted sequences
first differ at index 1 (13 vs 12); the full-sequence comparator answers 1. -/
theorem compareHandValues_walks_witness :
    compareHandValues [⟨13, 1⟩, ⟨14, 1⟩] [⟨14, 1⟩, ⟨12, 2⟩] = 1 :=
  Eq.trans
    (compareHandValues_walks [⟨13, 1⟩, ⟨14, 1⟩] [⟨14, 1⟩, ⟨12, 2⟩] 1
      (by decide) (by decide)
      (fun j hj => by interval_cases j; decide) (by decide))
    (by decide)

/-! ## Claim C8: the combination generator -/

/-- `getCombinations` emits `C(n, k)` subsets. -/
theorem combinationsAux_length {α : Type} : ∀ (k : Nat) (l : List α),
    (combinationsAux k l).length = Nat.choose l.length k
  | 0, l => by simp [combinationsAux]
  | k + 1, [] => by simp [combinationsAux]
  | k + 1, x :: xs => by
    simp [combinationsAux, combinationsAux_length k xs,
      combinationsAux_length (k + 1) xs, Nat.choose_succ_succ]

/-- Every emitted combination has the requested size and is an order-preserving
selection (a sublist, hence no element reused). -/
theorem combinationsAux_mem {α : Type} : ∀ (k : Nat) (l : List α) (c : List α),
    c ∈ combinationsAux k l → c.length = k ∧ c.Sublist l
  | 0, l, c, h => by
    simp only [combinationsAux, List.mem_singleton] at h
    subst h
    exact ⟨rfl, List.nil_sublist l⟩
  | _ + 1, [], c, h => by simp [combinationsAux] at h
  | k + 1, x :: xs, c, h => by
    simp only [combinationsAux, List.mem_append, List.mem_map] at h
    rcases h with ⟨c', hc', rfl⟩ | h
    · obtain ⟨hl, hs⟩ := combinationsAux_mem k xs c' hc'
      exact ⟨by simp [hl], hs.cons₂ x⟩
    · obtain ⟨hl, hs⟩ := combinationsAux_mem (k + 1) xs c h
      exact ⟨hl, hs.cons x⟩

/-- On an input with pairwise-distinct elements no combination is emitted
twice. -/
theorem combinationsAux_nodup {α : Type} : ∀ (k : Nat) (l : List α),
    l.Nodup → (combinationsAux k l).Nodup
  | 0, l, _ => by simp [combinationsAux]
  | _ + 1, [], _ => by simp [combinationsAux]
  | k + 1, x :: xs, h => by
    have hx : x ∉ xs := (List.nodup_cons.mp h).1
    have hxs : xs.Nodup := (List.nodup_cons.mp h).2
    simp only [combinationsAux]
    refine List.Nodup.append ?_ (combinationsAux_nodup (k + 1) xs hxs) ?_
    · exact (combinationsAux_nodup k xs hxs).map
        (fun a b hab => by simpa using hab)
    · intro a ha hb
      simp only [List.mem_map] at ha
      obtain ⟨c', _, rfl⟩ := ha
      have hsub := (combinationsAux_mem (k + 1) xs _ hb).2
      exact hx (hsub.subset (List.mem_cons_self x c'))

/-- Requesting more elements than available yields no combination. -/
theorem combinationsAux_eq_nil {α : Type} (k : Nat) (l : List α)
    (h : l.length < k) : combinationsAux k l = [] :=
  List.eq_nil_of_length_eq_zero
    (by rw [combinationsAux_length]; exact Nat.choose_eq_zero_of_lt h)

/-- The generator commutes with mapping over the input. -/
theorem combinationsAux_map {α β : Type} (f : α → β) : ∀ (k : Nat) (l : List α),
    combinationsAux k (l.map f) = (combinationsAux k l).map (List.map f)
  | 0, l => by simp [combinationsAux]
  | _ + 1, [] => by simp [combinationsAux]
  | k + 1, x :: xs => by
    simp only [List.map_cons, combinationsAux, combinationsAux_map f k xs,
      combinationsAux_map f (k + 1) xs, List.map_append, List.map_map]
    rfl

/-- Reading each position of a list through `getD` over `range` recovers it. -/
theorem range_map_getD {α : Type} (d : α) : ∀ (l : List α),
    (List.range l.length).map (fun i => l.getD i d) = l
  | [] => by simp
  | x :: xs => by
    rw [List.length_cons, List.range_succ_eq_map]
    simp only [List.map_cons, List.getD_cons_zero, List.map_map]
    have hcomp : ((fun i => (x :: xs).getD i d) ∘ Nat.succ) = (fun i => xs.getD i d) := by
      funext i
      simp
    rw [hcomp, range_map_getD d xs]

/-- Over a strictly increasing input the combinations are emitted in strictly
increasing lexicographic order. -/
theorem combinationsAux_sorted_lex : ∀ (k : Nat) (l : List Nat),
    List.Pairwise (· < ·) l →
    List.Pairwise (List.Lex (· < ·)) (combinationsAux k l)
  | 0, l, _ => by simp [combinationsAux]
  | _ + 1, [], _ => by simp [combinationsAux]
  | k + 1, x :: xs, h => by
    obtain ⟨hx, hxs⟩ := List.pairwise_cons.mp h
    simp only [combinationsAux]
    refine List.pairwise_append.mpr
      ⟨?_, combinationsAux_sorted_lex (k + 1) xs hxs, ?_⟩
    · exact (combinationsAux_sorted_lex k xs hxs).map _
        (fun _ _ hab => List.Lex.cons hab)
    · intro a ha b hb
      simp only [List.mem_map] at ha
      obtain ⟨c', _, rfl⟩ := ha
      obtain ⟨hlen, hsub⟩ := combinationsAux_mem (k + 1) xs b hb
      cases b with
      | nil => simp at hlen
      | cons y ys =>
        exact List.Lex.rel (hx y (hsub.subset (List.mem_cons_self y ys)))

/-- Claim C8 counterexample: on an input that itself repeats a card,
`getCombinations` emits the same subset twice, so "no subset repeated" fails
for general card sequences (it holds for duplicate-free inputs). -/
theorem getCombinations_repeats :
    getCombinations [(⟨2, 1⟩ : CardData), ⟨2, 1⟩] 1 = [[⟨2, 1⟩], [⟨2, 1⟩]] ∧
    ¬ (getCombinations [(⟨2, 1⟩ : CardData), ⟨2, 1⟩] 1).Nodup := by decide

/-- Claim C8 (amended): `getCombinations cards k` returns exactly `C(n, k)`
subsets, each of size `k` and order-preserving with no element reused (a
sublist of the input); none is repeated provided the input cards are pairwise
distinct (the counterexample shows repetition for an input with duplicate
cards); for `k > n` it returns none; and the output is exactly the image of
the size-`k` index combinations of `0..n-1`, which are produced in strictly
increasing lexicographic order by original index.  (Input mutation does not
arise: the embedding is purely functional, as is the source's `push`/`pop`
discipline on a scratch array.) -/
theorem getCombinations_spec (cards : List CardData) (k : Nat) :
    (getCombinations cards k).length = Nat.choose cards.length k ∧
    (∀ c ∈ getCombinations cards k, c.length = k ∧ c.Sublist cards) ∧
    (cards.Nodup → (getCombinations cards k).Nodup) ∧
    (cards.length < k → getCombinations cards k = []) ∧
    getCombinations cards k =
      (getCombinations (List.range cards.length) k).map
        (fun idxs => idxs.map (fun i => cards.getD i ⟨0, 0⟩)) ∧
    List.Pairwise (List.Lex (· < ·)) (getCombinations (List.range cards.length) k) := by
  refine ⟨combinationsAux_length k cards,
    fun c hc => combinationsAux_mem k cards c hc,
    fun h => combinationsAux_nodup k cards h,
    fun h => combinationsAux_eq_nil k cards h, ?_, ?_⟩
  · show combinationsAux k cards =
      (combinationsAux k (List.range cards.length)).map
        (fun idxs => idxs.map (fun i => cards.getD i ⟨0, 0⟩))
    conv_lhs => rw [← range_map_getD (⟨0, 0⟩ : CardData) cards]
    rw [combinationsAux_map]
  · exact combinationsAux_sorted_lex k _ (List.pairwise_lt_range _)

/-- Helper: a fully valid hand passes the per-card validation loop. -/
theorem validateCards_ok : ∀ (cards : List CardData) (index : Nat),
    (∀ c ∈ cards, isValidCard c) → validateCards cards index = .ok ()
  | [], _, _ => rfl
  | card :: rest, index, hv => by
    have hc : isValidCard card = true := hv card (List.mem_cons_self card rest)
    simp only [validateCards, hc, Bool.not_true, Bool.false_eq_true, if_false]
    exact validateCards_ok rest (index + 1) (fun c hcm => hv c (List.mem_cons_of_mem card hcm))

/-- Helper: every entry of the rank-count table records the count of its key. -/
theorem rankCountEntries_mem {cards : List CardData} {e : Nat × Nat}
    (h : e ∈ rankCountEntries cards) : e.2 = rankCount cards e.1 := by
  simp only [rankCountEntries, List.mem_map] at h
  obtain ⟨r, _, rfl⟩ := h
  rfl

/-- Helper: no rank has multiplicity `n` exactly when the `find?` over the
rank-count entries fails. -/
theorem hasRankWithCount_eq_false {cards : List CardData} {n : Nat}
    (h : ∀ r, rankCount cards r ≠ n) : hasRankWithCount cards n = false := by
  rw [hasRankWithCount, Bool.eq_false_iff]
  intro hsome
  rw [List.find?_isSome] at hsome
  obtain ⟨e, he, hp⟩ := hsome
  have hmem := rankCountEntries_mem he
  simp only [beq_iff_eq] at hp
  exact h e.1 (by rw [← hmem, hp])

/-- Helper: with no rank of multiplicity 2 the `pairs` list is empty. -/
theorem pairsOf_eq_nil {cards : List CardData}
    (h : ∀ r, rankCount cards r ≠ 2) : pairsOf cards = [] := by
  have hf : (rankCountEntries cards).filter (fun e => e.2 == 2) = [] := by
    rw [List.filter_eq_nil_iff]
    intro e he
    simp only [beq_iff_eq]
    have := rankCountEntries_mem he
    intro hn
    exact h e.1 (by rw [← this, hn])
  simp [pairsOf, hf, List.insertionSort]

/-! ## Order-theoretic facts about the comparator (used for claims C3 and C2) -/

/-- The walk never distinguishes a list from itself. -/
theorem walkRanks_self : ∀ (r : List Nat), walkRanks r r = none
  | [] => rfl
  | a :: as => by
    simp only [walkRanks, if_neg (show ¬ (a ≠ a) from fun h => h rfl)]
    exact walkRanks_self as

/-- Swapping the hands negates the walk's answer. -/
theorem walkRanks_flip : ∀ (r1 r2 : List Nat),
    walkRanks r2 r1 = (walkRanks r1 r2).map (fun v => -v)
  | [], [] => rfl
  | [], _ :: _ => rfl
  | _ :: _, [] => rfl
  | a :: as, b :: bs => by
    by_cases hab : a = b
    · subst hab
      simp only [walkRanks, if_neg (show ¬ (a ≠ a) from fun h => h rfl)]
      exact walkRanks_flip as bs
    · have hba : b ≠ a := fun h => hab h.symm
      simp only [walkRanks, if_pos hab, if_pos hba, Option.map_some']
      congr 1
      split_ifs <;> omega

/-- Swapping the hands negates the comparator. -/
theorem compareHandValues_flip (cards1 cards2 : List CardData) :
    compareHandValues cards2 cards1 = -compareHandValues cards1 cards2 := by
  simp only [compareHandValues]
  rw [walkRanks_flip]
  rcases hw : walkRanks (cardRanks (sortCardsByRank cards1))
      (cardRanks (sortCardsByRank cards2)) with _ | v
  · simp only [Option.map_none']
    rcases h1 : sortCardsByRank cards1 with _ | ⟨c1, rest1⟩ <;>
      rcases h2 : sortCardsByRank cards2 with _ | ⟨c2, rest2⟩
    · rfl
    · rfl
    · rfl
    · simp only []
      by_cases hs : c1.suit = c2.suit
      · rw [if_neg (by simpa using hs.symm), if_neg (by simpa using hs)]
        rfl
      · rw [if_pos (fun h => hs h.symm), if_pos hs]
        omega
  · rw [Option.map_some']

/-- A hand compares equal to itself. -/
theorem compareHandValues_self (cards : List CardData) :
    compareHandValues cards cards = 0 := by
  simp only [compareHandValues]
  rw [walkRanks_self]
  rcases h : sortCardsByRank cards with _ | ⟨c, rest⟩
  · rfl
  · simp

/-- On equal-length rank lists the walk is silent exactly on equal lists. -/
theorem walkRanks_none_iff : ∀ (r1 r2 : List Nat), r1.length = r2.length →
    (walkRanks r1 r2 = none ↔ r1 = r2)
  | [], [], _ => by simp [walkRanks]
  | [], _ :: _, h => by simp at h
  | _ :: _, [], h => by simp at h
  | a :: as, b :: bs, h => by
    by_cases hab : a = b
    · subst hab
      simp only [walkRanks, if_neg (show ¬ (a ≠ a) from fun h => h rfl),
        List.cons.injEq, true_and]
      exact walkRanks_none_iff as bs (by simpa using h)
    · simp [walkRanks, hab]

/-- On equal-length rank lists the walk answers 1 exactly when the second list
is lexicographically below the first. -/
theorem walkRanks_one_iff : ∀ (r1 r2 : List Nat), r1.length = r2.length →
    (walkRanks r1 r2 = some 1 ↔ List.Lex (· < ·) r2 r1)
  | [], [], _ => by
    simp only [walkRanks]
    constructor
    · intro h
      cases h
    · intro h
      cases h
  | [], _ :: _, h => by simp at h
  | _ :: _, [], h => by simp at h
  | a :: as, b :: bs, h => by
    by_cases hab : a = b
    · subst hab
      simp only [walkRanks, if_neg (show ¬ (a ≠ a) from fun h => h rfl)]
      rw [walkRanks_one_iff as bs (by simpa using h)]
      rw [List.Lex.cons_iff]
    · simp only [walkRanks, if_pos hab]
      constructor
      · intro hv
        have : a > b := by
          by_contra hgt
          rw [if_neg hgt] at hv
          simp at hv
        rw [if_pos this] at hv
        exact List.Lex.rel this
      · intro hlex
        cases hlex with
        | cons hl => exact absurd rfl hab
        | rel hr => rw [if_pos hr]

/-- The suit priority of the highest card after sorting (0 for an empty hand);
the quantity consulted by the comparator's suit fall-back. -/
def headSuitOrder (cards : List CardData) : Int :=
  match sortCardsByRank cards with
  | [] => 0
  | c :: _ => suitOrder c.suit

/-- On equal-length hands a non-negative comparison means: strictly above in
the lexicographic rank order, or equal ranks with at least the other's head
suit priority. -/
theorem compareHandValues_nonneg_iff (cards1 cards2 : List CardData)
    (hlen : cards1.length = cards2.length) :
    0 ≤ compareHandValues cards1 cards2 ↔
      (List.Lex (· < ·) (cardRanks (sortCardsByRank cards2))
          (cardRanks (sortCardsByRank cards1)) ∨
        (cardRanks (sortCardsByRank cards1) = cardRanks (sortCardsByRank cards2) ∧
          headSuitOrder cards2 ≤ headSuitOrder cards1)) := by
  have hlen' : (cardRanks (sortCardsByRank cards1)).length =
      (cardRanks (sortCardsByRank cards2)).length := by
    simp [cardRanks, length_sortCardsByRank, hlen]
  simp only [compareHandValues, headSuitOrder]
  rcases hw : walkRanks (cardRanks (sortCardsByRank cards1))
      (cardRanks (sortCardsByRank cards2)) with _ | v
  · have heq := (walkRanks_none_iff _ _ hlen').mp hw
    have hnotlex : ¬ List.Lex (· < ·) (cardRanks (sortCardsByRank cards2))
        (cardRanks (sortCardsByRank cards1)) := by
      intro hlex
      rw [← heq] at hlex
      have hone := (walkRanks_one_iff _ _ rfl).mpr hlex
      rw [walkRanks_self] at hone
      cases hone
    rcases h1 : sortCardsByRank cards1 with _ | ⟨c1, rest1⟩ <;>
      rcases h2 : sortCardsByRank cards2 with _ | ⟨c2, rest2⟩ <;>
      rw [h1, h2] at heq hnotlex
    · exact ⟨fun _ => Or.inr ⟨heq, le_refl 0⟩, fun _ => le_refl 0⟩
    · simp [cardRanks] at heq
    · simp [cardRanks] at heq
    · show (0 ≤ (if c1.suit ≠ c2.suit then suitOrder c1.suit - suitOrder c2.suit
          else 0)) ↔
        (List.Lex (· < ·) (cardRanks (c2 :: rest2)) (cardRanks (c1 :: rest1)) ∨
          (cardRanks (c1 :: rest1) = cardRanks (c2 :: rest2) ∧
            suitOrder c2.suit ≤ suitOrder c1.suit))
      by_cases hs : c1.suit = c2.suit
      · rw [if_neg (show ¬ (c1.suit ≠ c2.suit) from fun h => h hs)]
        exact ⟨fun _ => Or.inr ⟨heq, by rw [hs]⟩, fun _ => le_refl 0⟩
      · rw [if_pos hs]
        constructor
        · intro hle
          exact Or.inr ⟨heq, by omega⟩
        · rintro (hlex | ⟨-, hso⟩)
          · exact absurd hlex hnotlex
          · omega
  · rcases walkRanks_some hw with hv | hv <;> subst hv
    · have hlex := (walkRanks_one_iff _ _ hlen').mp hw
      simp only [hlex, true_or, iff_true]
      decide
    · have hne : cardRanks (sortCardsByRank cards1) ≠ cardRanks (sortCardsByRank cards2) := by
        intro heq
        have := (walkRanks_none_iff _ _ hlen').mpr heq
        rw [hw] at this
        cases this
      have hnotlex : ¬ List.Lex (· < ·) (cardRanks (sortCardsByRank cards2))
          (cardRanks (sortCardsByRank cards1)) := by
        intro hlex
        have h1 := (walkRanks_one_iff _ _ hlen').mpr hlex
        rw [hw] at h1
        cases h1
      simp [hnotlex, hne]

/-- Non-negativity of the comparison is transitive across equal-length hands. -/
theorem compareHandValues_nonneg_trans {a b c : List CardData}
    (hab : a.length = b.length) (hbc : b.length = c.length)
    (h1 : 0 ≤ compareHandValues a b) (h2 : 0 ≤ compareHandValues b c) :
    0 ≤ compareHandValues a c := by
  rw [compareHandValues_nonneg_iff a b hab] at h1
  rw [compareHandValues_nonneg_iff b c hbc] at h2
  rw [compareHandValues_nonneg_iff a c (hab.trans hbc)]
  rcases h1 with h1 | ⟨he1, hs1⟩
  · rcases h2 with h2 | ⟨he2, hs2⟩
    · exact Or.inl (IsTrans.trans _ _ _ h2 h1)
    · refine Or.inl ?_
      rw [← he2]
      exact h1
  · rcases h2 with h2 | ⟨he2, hs2⟩
    · refine Or.inl ?_
      rw [he1]
      exact h2
    · exact Or.inr ⟨he1.trans he2, le_trans hs2 hs1⟩

/-! ## Claim C3: maximality of the best-hand search -/

/-- "at least as good" in the order of the search: strictly lower (stronger)
level, or equal level and non-negative comparison. -/
def handGe (x y : HandRankEvaluation) : Prop :=
  x.handRankLevel < y.handRankLevel ∨
    (x.handRankLevel = y.handRankLevel ∧
      0 ≤ compareHandValues x.rankingCards y.rankingCards)

theorem handGe_refl (x : HandRankEvaluation) : handGe x x :=
  Or.inr ⟨rfl, by rw [compareHandValues_self]⟩

theorem handGe_trans {x y z : HandRankEvaluation}
    (hxy : x.rankingCards.length = y.rankingCards.length)
    (hyz : y.rankingCards.length = z.rankingCards.length)
    (h1 : handGe x y) (h2 : handGe y z) : handGe x z := by
  rcases h1 with h1 | ⟨he1, hc1⟩
  · rcases h2 with h2 | ⟨he2, hc2⟩
    · exact Or.inl (lt_trans h1 h2)
    · exact Or.inl (by omega)
  · rcases h2 with h2 | ⟨he2, hc2⟩
    · exact Or.inl (by omega)
    · exact Or.inr ⟨he1.trans he2, compareHandValues_nonneg_trans hxy hyz hc1 hc2⟩

/-- A candidate that does not replace the current best is at most as good. -/
theorem handGe_of_not_better {e acc : HandRankEvaluation}
    (h1 : ¬ (e.handRankLevel < acc.handRankLevel))
    (h2 : ¬ (e.handRankLevel = acc.handRankLevel ∧
      0 < compareHandValues e.rankingCards acc.rankingCards)) :
    handGe acc e := by
  by_cases heq : e.handRankLevel = acc.handRankLevel
  · refine Or.inr ⟨heq.symm, ?_⟩
    have hng : ¬ (0 < compareHandValues e.rankingCards acc.rankingCards) :=
      fun hc => h2 ⟨heq, hc⟩
    rw [compareHandValues_flip]
    omega
  · exact Or.inl (by omega)

/-- A successful classification reports the rank-descending sort of its
input as the ranking cards. -/
theorem evaluateHandRank_ranking {cards : List CardData} {e : HandRankEvaluation}
    (he : evaluateHandRank cards = .ok e) : e.rankingCards = sortCardsByRank cards := by
  simp only [evaluateHandRank] at he
  repeat' split at he
  all_goals first
    | (cases he; rfl)
    | simp at he

/-- Classification of a hand of valid cards always succeeds. -/
theorem evaluateHandRank_isOk {cards : List CardData}
    (hv : ∀ c ∈ cards, isValidCard c) : ∃ e, evaluateHandRank cards = .ok e := by
  have hval : validateCards cards 0 = .ok () := validateCards_ok cards 0 hv
  simp only [evaluateHandRank, hval]
  repeat' split
  all_goals exact ⟨_, rfl⟩

/-- A duplicate-free hand of valid cards passes the validation loop. -/
theorem validateAndCheckDuplicates_ok :
    ∀ (cards : List CardData) (index : Nat) (seen : List CardData),
    (∀ c ∈ cards, isValidCard c) → (seen ++ cards).Nodup →
    validateAndCheckDuplicates cards index seen = .ok ()
  | [], _, _, _, _ => rfl
  | card :: rest, index, seen, hv, hnd => by
    have hc : isValidCard card = true := hv card (List.mem_cons_self _ _)
    have hnotmem : card ∉ seen := by
      intro hin
      rw [List.nodup_append] at hnd
      exact hnd.2.2 hin (List.mem_cons_self _ _)
    have hmem : seen.contains card = false := by
      rw [Bool.eq_false_iff]
      intro hc2
      exact hnotmem (List.elem_iff.mp hc2)
    simp only [validateAndCheckDuplicates, hc, Bool.not_true, Bool.false_eq_true, if_false,
      hmem]
    exact validateAndCheckDuplicates_ok rest (index + 1) (seen ++ [card])
      (fun c hcm => hv c (List.mem_cons_of_mem card hcm))
      (by rw [← List.append_cons]; exact hnd)

/-- The selection loop started on an accumulator returns a value at least as
good as the accumulator and as every later candidate, and originating from one
of them. -/
theorem foldBest_some : ∀ (combos : List (List CardData)) (acc : HandRankEvaluation),
    (∀ c ∈ combos, c.length = 5 ∧ ∃ e, evaluateHandRank c = .ok e) →
    acc.rankingCards.length = 5 →
    ∃ out, foldBest combos (some acc) = some out ∧
      out.rankingCards.length = 5 ∧
      handGe out acc ∧
      (∀ c ∈ combos, ∀ e, evaluateHandRank c = .ok e → handGe out e) ∧
      (out = acc ∨ ∃ c, c ∈ combos ∧ evaluateHandRank c = .ok out)
  | [], acc, _, hacc =>
    ⟨acc, rfl, hacc, handGe_refl acc,
      fun c hc => absurd hc (List.not_mem_nil c), Or.inl rfl⟩
  | c0 :: rest, acc, hcombos, hacc => by
    obtain ⟨hc05, e0, he0⟩ := hcombos c0 (List.mem_cons_self _ _)
    have hrest : ∀ c ∈ rest, c.length = 5 ∧ ∃ e, evaluateHandRank c = .ok e :=
      fun c hc => hcombos c (List.mem_cons_of_mem c0 hc)
    have he0len : e0.rankingCards.length = 5 := by
      rw [evaluateHandRank_ranking he0, length_sortCardsByRank, hc05]
    simp only [foldBest, he0]
    by_cases h1 : e0.handRankLevel < acc.handRankLevel
    · rw [if_pos h1]
      obtain ⟨out, hfold, hlen, hge, hall, hprov⟩ := foldBest_some rest e0 hrest he0len
      refine ⟨out, hfold, hlen, ?_, ?_, ?_⟩
      · exact handGe_trans (by rw [hlen, he0len]) (by rw [he0len, hacc]) hge (Or.inl h1)
      · intro c hc e he
        rcases List.mem_cons.mp hc with rfl | hm
        · rw [he0] at he
          injection he with h
          subst h
          exact hge
        · exact hall c hm e he
      · rcases hprov with rfl | ⟨c, hcm, hce⟩
        · exact Or.inr ⟨c0, List.mem_cons_self _ _, he0⟩
        · exact Or.inr ⟨c, List.mem_cons_of_mem c0 hcm, hce⟩
    · rw [if_neg h1]
      by_cases h2 : (e0.handRankLevel == acc.handRankLevel &&
          compareHandValues e0.rankingCards acc.rankingCards > 0) = true
      · rw [if_pos h2]
        simp only [Bool.and_eq_true, beq_iff_eq, decide_eq_true_eq] at h2
        obtain ⟨heq0, hgt0⟩ := h2
        obtain ⟨out, hfold, hlen, hge, hall, hprov⟩ := foldBest_some rest e0 hrest he0len
        refine ⟨out, hfold, hlen, ?_, ?_, ?_⟩
        · exact handGe_trans (by rw [hlen, he0len]) (by rw [he0len, hacc]) hge
            (Or.inr ⟨heq0, le_of_lt hgt0⟩)
        · intro c hc e he
          rcases List.mem_cons.mp hc with rfl | hm
          · rw [he0] at he
            injection he with h
            subst h
            exact hge
          · exact hall c hm e he
        · rcases hprov with rfl | ⟨c, hcm, hce⟩
          · exact Or.inr ⟨c0, List.mem_cons_self _ _, he0⟩
          · exact Or.inr ⟨c, List.mem_cons_of_mem c0 hcm, hce⟩
      · rw [if_neg h2]
        have hae : handGe acc e0 := by
          refine handGe_of_not_better h1 ?_
          rintro ⟨hl, hgt⟩
          exact h2 (by simp [hl, hgt])
        obtain ⟨out, hfold, hlen, hge, hall, hprov⟩ := foldBest_some rest acc hrest hacc
        refine ⟨out, hfold, hlen, hge, ?_, ?_⟩
        · intro c hc e he
          rcases List.mem_cons.mp hc with rfl | hm
          · rw [he0] at he
            injection he with h
            subst h
            exact handGe_trans (by rw [hlen, hacc]) (by rw [hacc, he0len]) hge hae
          · exact hall c hm e he
        · rcases hprov with rfl | ⟨c, hcm, hce⟩
          · exact Or.inl rfl
          · exact Or.inr ⟨c, List.mem_cons_of_mem c0 hcm, hce⟩

/-- Claim C3 (confirmed): on a valid duplicate-free input of 5 to 10 cards,
`getBestHandCombination` succeeds with a result at least as strong as the
classification of every 5-card subset, under the order "lower handRankLevel
wins, then `compareHandValues` on the five cards". -/
theorem getBestHandCombination_maximal (cards : List CardData)
    (h5 : 5 ≤ cards.length) (h10 : cards.length ≤ 10)
    (hv : ∀ c ∈ cards, isValidCard c) (hnd : cards.Nodup) :
    ∃ best, getBestHandCombination cards = .ok best ∧
      ∀ sub ∈ getCombinations cards 5, ∀ e, evaluateHandRank sub = .ok e →
        best.handRankLevel < e.handRankLevel ∨
          (best.handRankLevel = e.handRankLevel ∧
            0 ≤ compareHandValues best.bestFiveCards e.rankingCards) := by
  have hA : (cards.length == 0) = false := by
    simp only [beq_eq_false_iff_ne, ne_eq]
    omega
  have hB : ¬ (cards.length < 2) := by omega
  have hC : ¬ (cards.length > 10) := by omega
  have hD : ¬ (cards.length < 5) := by omega
  have hvd : validateAndCheckDuplicates cards 0 [] = .ok () :=
    validateAndCheckDuplicates_ok cards 0 [] hv (by simpa using hnd)
  have hcombos : ∀ c ∈ getCombinations cards 5,
      c.length = 5 ∧ ∃ e, evaluateHandRank c = .ok e := by
    intro c hc
    obtain ⟨hlen, hsub⟩ := combinationsAux_mem 5 cards c hc
    exact ⟨hlen, evaluateHandRank_isOk (fun x hx => hv x (hsub.subset hx))⟩
  have hnonempty : getCombinations cards 5 ≠ [] := by
    intro hnil
    have hlc := combinationsAux_length 5 cards
    rw [show getCombinations cards 5 = combinationsAux 5 cards from rfl] at hnil
    rw [hnil] at hlc
    have hpos := Nat.choose_pos h5
    simp at hlc
    omega
  obtain ⟨c0, rest, hsplit⟩ := List.exists_cons_of_ne_nil hnonempty
  obtain ⟨hc05, e0, he0⟩ := hcombos c0 (by rw [hsplit]; exact List.mem_cons_self _ _)
  have he0len : e0.rankingCards.length = 5 := by
    rw [evaluateHandRank_ranking he0, length_sortCardsByRank, hc05]
  have hrest : ∀ c ∈ rest, c.length = 5 ∧ ∃ e, evaluateHandRank c = .ok e :=
    fun c hc => hcombos c (by rw [hsplit]; exact List.mem_cons_of_mem c0 hc)
  obtain ⟨out, hfold, hlen, hge, hall, hprov⟩ := foldBest_some rest e0 hrest he0len
  refine ⟨⟨out.handRankTitle, out.handRankLevel, out.handRankDescription,
    out.rankingCards⟩, ?_, ?_⟩
  · simp only [getBestHandCombination, hA, Bool.false_eq_true, if_false, if_neg hB,
      if_neg hC, hvd, if_neg hD, hsplit, foldBest, he0, hfold]
  · intro sub hsub e he
    have hout : handGe out e := by
      rw [hsplit] at hsub
      rcases List.mem_cons.mp hsub with rfl | hm
      · rw [he0] at he
        injection he with h
        subst h
        exact hge
      · exact hall sub hm e he
    rcases hout with h | ⟨hl, hc⟩
    · exact Or.inl h
    · exact Or.inr ⟨hl, hc⟩

/-- Claim C3 witness: the search over a concrete 5-card royal flush input
succeeds. -/
theorem getBestHandCombination_maximal_witness :
    (getBestHandCombination [⟨14, 1⟩, ⟨13, 1⟩, ⟨12, 1⟩, ⟨11, 1⟩, ⟨10, 1⟩]).isOk = true := by
  obtain ⟨best, hb, -⟩ := getBestHandCombination_maximal
    [⟨14, 1⟩, ⟨13, 1⟩, ⟨12, 1⟩, ⟨11, 1⟩, ⟨10, 1⟩]
    (by decide) (by decide) (by decide) (by decide)
  rw [hb]
  rfl

/-! ## Claim C6: duplicate rejection -/

/-- Claim C6 counterexample: eleven copies of one card — an input "containing
two cards with identical rank and suit" — is rejected by the card-count check,
which runs first, so the failure is `invalidCardCount`, not the duplicate
error the claim requires for any such input. -/
theorem getBestHandCombination_elevenDuplicates :
    ¬ (List.replicate 11 (CardData.mk 2 1)).Nodup ∧
    getBestHandCombination (List.replicate 11 ⟨2, 1⟩) = .error .invalidCardCount ∧
    ∀ code : Nat,
      getBestHandCombination (List.replicate 11 ⟨2, 1⟩) ≠ .error (.duplicateCard code) := by
  refine ⟨by decide, by decide, ?_⟩
  intro code h
  rw [(by decide :
    getBestHandCombination (List.replicate 11 ⟨2, 1⟩) = .error .invalidCardCount)] at h
  simp at h

/-- Helper for C6: on a hand of valid cards with a repetition, the
validation/duplicate loop stops at the first repeated card with its code. -/
theorem validateAndCheckDuplicates_dup :
    ∀ (cards : List CardData) (index : Nat) (seen : List CardData),
    (∀ c ∈ cards, isValidCard c) → ¬ (seen ++ cards).Nodup → seen.Nodup →
    ∃ code, validateAndCheckDuplicates cards index seen = .error (.duplicateCard code)
  | [], _, seen, _, hnd, hseen => absurd (by simpa using hseen) hnd
  | card :: rest, index, seen, hv, hnd, hseen => by
    have hc : isValidCard card = true := hv card (List.mem_cons_self _ _)
    simp only [validateAndCheckDuplicates, hc, Bool.not_true, Bool.false_eq_true, if_false]
    by_cases hmem : seen.contains card = true
    · rw [if_pos hmem]
      exact ⟨card.suit * 1000 + card.rank, rfl⟩
    · rw [if_neg hmem]
      have hnotmem : card ∉ seen := by
        intro hin
        exact hmem (List.elem_iff.mpr hin)
      refine validateAndCheckDuplicates_dup rest (index + 1) (seen ++ [card])
        (fun c hcm => hv c (List.mem_cons_of_mem card hcm)) ?_ ?_
      · rw [← List.append_cons]
        exact hnd
      · rw [List.nodup_append]
        refine ⟨hseen, List.nodup_singleton card, ?_⟩
        intro a ha hb
        rw [List.mem_singleton] at hb
        subst hb
        exact hnotmem ha

/-- Claim C6 (amended): an input of 2 to 10 cards, all individually valid,
containing two cards with identical rank and suit fails with the duplicate
error (carrying the repeated card's code).  Inputs of more than 10 cards fail
with the count error instead (see the counterexample), and an out-of-range
card earlier in the list would fail its validity check first. -/
theorem getBestHandCombination_duplicate (cards : List CardData)
    (h2 : 2 ≤ cards.length) (h10 : cards.length ≤ 10)
    (hv : ∀ c ∈ cards, isValidCard c) (hnd : ¬ cards.Nodup) :
    ∃ code, getBestHandCombination cards = .error (.duplicateCard code) := by
  obtain ⟨code, hc⟩ :=
    validateAndCheckDuplicates_dup cards 0 [] hv (by simpa using hnd) List.nodup_nil
  refine ⟨code, ?_⟩
  have hA : (cards.length == 0) = false := by
    simp only [beq_eq_false_iff_ne, ne_eq]
    omega
  have hB : ¬ (cards.length < 2) := by omega
  have hC : ¬ (cards.length > 10) := by omega
  simp only [getBestHandCombination, hA, Bool.false_eq_true, if_false,
    if_neg hB, if_neg hC, hc]

/-- Claim C6 witness: the two-copy hand `[2♥, 2♥]` is rejected (no result is
produced). -/
theorem getBestHandCombination_duplicate_witness :
    (getBestHandCombination [⟨2, 1⟩, ⟨2, 1⟩]).isOk = false := by
  obtain ⟨code, hc⟩ := getBestHandCombination_duplicate [⟨2, 1⟩, ⟨2, 1⟩]
    (by decide) (by decide) (by decide) (by decide)
  rw [hc]
  rfl

/-! ## Claim C5: classification of 2-4 card hands -/

/-- Claim C5 (confirmed): for every valid 2-to-4-card hand, `evaluateHandRank`
succeeds and produces exactly one of Four of a Kind (level 3), Three of a Kind
(level 7), One Pair (level 9) or High Card (level 10), selected in that check
order (four first, then three, then a pair, then high card); Flush, Straight,
Full House and Two Pair are never produced. -/
theorem evaluateHandRank_small (cards : List CardData)
    (h2 : 2 ≤ cards.length) (h4 : cards.length ≤ 4)
    (hv : ∀ c ∈ cards, isValidCard c) :
    ∃ e, evaluateHandRank cards = .ok e ∧
      e.rankingCards = sortCardsByRank cards ∧
      ((hasRankWithCount cards 4 = true ∧
          e.handRankTitle = "Four of a Kind" ∧ e.handRankLevel = 3) ∨
       (hasRankWithCount cards 4 = false ∧ hasRankWithCount cards 3 = true ∧
          e.handRankTitle = "Three of a Kind" ∧ e.handRankLevel = 7) ∨
       (hasRankWithCount cards 4 = false ∧ hasRankWithCount cards 3 = false ∧
          pairsOf cards ≠ [] ∧ e.handRankTitle = "One Pair" ∧ e.handRankLevel = 9) ∨
       (hasRankWithCount cards 4 = false ∧ hasRankWithCount cards 3 = false ∧
          pairsOf cards = [] ∧ e.handRankTitle = "High Card" ∧ e.handRankLevel = 10)) := by
  have hval : validateCards cards 0 = .ok () := validateCards_ok cards 0 hv
  have hlt : cards.length < 5 := by omega
  simp only [evaluateHandRank, hval, if_pos hlt]
  by_cases h4k : hasRankWithCount cards 4 = true
  · rw [if_pos h4k]
    exact ⟨_, rfl, rfl, Or.inl ⟨h4k, rfl, rfl⟩⟩
  · rw [if_neg h4k]
    have h4f : hasRankWithCount cards 4 = false := by simpa using h4k
    by_cases h3k : hasRankWithCount cards 3 = true
    · rw [if_pos h3k]
      exact ⟨_, rfl, rfl, Or.inr (Or.inl ⟨h4f, h3k, rfl, rfl⟩)⟩
    · rw [if_neg h3k]
      have h3f : hasRankWithCount cards 3 = false := by simpa using h3k
      by_cases hp : (pairsOf cards).length > 0
      · rw [if_pos (by simpa using hp)]
        refine ⟨_, rfl, rfl, Or.inr (Or.inr (Or.inl ⟨h4f, h3f, ?_, rfl, rfl⟩))⟩
        intro hnil
        rw [hnil] at hp
        simp at hp
      · rw [if_neg (by simpa using hp)]
        refine ⟨_, rfl, rfl, Or.inr (Or.inr (Or.inr ⟨h4f, h3f, ?_, rfl, rfl⟩))⟩
        have : (pairsOf cards).length = 0 := by omega
        exact List.eq_nil_of_length_eq_zero this

/-- Claim C5 witness: the pair `[2♥ 2♦]` classifies as One Pair, level 9. -/
theorem evaluateHandRank_small_witness :
    (evaluateHandRank [⟨2, 1⟩, ⟨2, 2⟩]).map (fun e => e.handRankLevel) = .ok 9 := by
  obtain ⟨e, he, -, hd⟩ :=
    evaluateHandRank_small [⟨2, 1⟩, ⟨2, 2⟩] (by decide) (by decide) (by decide)
  rw [he]
  rcases hd with ⟨h, -, -⟩ | ⟨-, h, -, -⟩ | ⟨-, -, -, -, hl⟩ | ⟨-, -, h, -, -⟩
  · exact absurd h (by decide)
  · exact absurd h (by decide)
  · simp [Except.map, hl]
  · exact absurd h (by decide)

/-! ## Claim C7: the straight predicate and the wheel -/

/-- Helper: the loop test of `isStraight`, phrased positionally. -/
theorem consecutiveDesc_iff : ∀ (ranks : List Nat),
    consecutiveDesc ranks = true ↔
      ∀ i, i + 1 < ranks.length → ranks.getD (i + 1) 0 + 1 = ranks.getD i 0
  | [] => by
    simp only [consecutiveDesc, List.length_nil, true_iff]
    omega
  | [a] => by
    simp only [consecutiveDesc, List.length_singleton, true_iff]
    omega
  | a :: b :: rest => by
    simp only [consecutiveDesc, Bool.and_eq_true, beq_iff_eq]
    rw [consecutiveDesc_iff (b :: rest)]
    constructor
    · rintro ⟨hab, h⟩ i hi
      cases i with
      | zero => simpa using hab.symm
      | succ j =>
        simp only [List.getD_cons_succ]
        exact h j (by simpa using hi)
    · intro h
      refine ⟨?_, fun i hi => ?_⟩
      · have := h 0 (by simp)
        simpa using this.symm
      · have := h (i + 1) (by simpa using hi)
        simpa using this

/-- Claim C7 (confirmed): for a 5-card hand `isStraight` holds exactly when
the rank-descending sorted ranks decrease by exactly 1 at each consecutive
position or are exactly the wheel `[14, 5, 4, 3, 2]`; consequently a valid
mixed-suit wheel hand classifies as "Straight" with level 6. -/
theorem isStraight_spec (cards : List CardData) (h5 : cards.length = 5) :
    (isStraight cards = true ↔
      ((∀ i, i + 1 < (cardRanks (sortCardsByRank cards)).length →
          (cardRanks (sortCardsByRank cards)).getD (i + 1) 0 + 1 =
            (cardRanks (sortCardsByRank cards)).getD i 0) ∨
        cardRanks (sortCardsByRank cards) = [14, 5, 4, 3, 2])) ∧
    ((∀ c ∈ cards, isValidCard c) →
      cardRanks (sortCardsByRank cards) = [14, 5, 4, 3, 2] →
      isFlush cards = false →
      ∃ e, evaluateHandRank cards = .ok e ∧
        e.handRankTitle = "Straight" ∧ e.handRankLevel = 6) := by
  constructor
  · by_cases hw : cardRanks (sortCardsByRank cards) = [14, 5, 4, 3, 2]
    · simp [isStraight, hw]
    · simp only [isStraight, beq_iff_eq]
      rw [if_neg hw, consecutiveDesc_iff]
      constructor
      · exact fun h => Or.inl h
      · rintro (h | h)
        · exact h
        · exact absurd h hw
  · intro hv hranks hflush
    have hval : validateCards cards 0 = .ok () := validateCards_ok cards 0 hv
    have hstraight : isStraight cards = true := by simp [isStraight, hranks]
    have hcount : ∀ r, rankCount cards r ≤ 1 := by
      intro r
      have hperm : (cardRanks (sortCardsByRank cards)).Perm (cardRanks cards) :=
        (sortCardsByRank_perm cards).map _
      have : rankCount cards r = List.count r (cardRanks (sortCardsByRank cards)) := by
        unfold rankCount
        exact (hperm.count_eq r).symm
      rw [this, hranks]
      have hnd : List.Nodup [14, 5, 4, 3, 2] := by decide
      exact List.nodup_iff_count_le_one.mp hnd r
    have h4f : hasRankWithCount cards 4 = false :=
      hasRankWithCount_eq_false (fun r hr => by have := hcount r; omega)
    have h3f : hasRankWithCount cards 3 = false :=
      hasRankWithCount_eq_false (fun r hr => by have := hcount r; omega)
    have hlen5 : ¬ (cards.length < 5) := by omega
    simp only [evaluateHandRank, hval, if_neg hlen5, hflush, hstraight,
      Bool.false_and, Bool.and_false, h4f, h3f, Bool.false_eq_true, if_false]
    exact ⟨_, rfl, rfl, rfl⟩

/-- Claim C7 witness: the concrete mixed-suit wheel `A♥ 2♦ 3♣ 4♠ 5♥` is a
straight (level 6). -/
theorem isStraight_spec_witness :
    isStraight [⟨14, 1⟩, ⟨2, 2⟩, ⟨3, 3⟩, ⟨4, 4⟩, ⟨5, 1⟩] = true ∧
    (evaluateHandRank [⟨14, 1⟩, ⟨2, 2⟩, ⟨3, 3⟩, ⟨4, 4⟩, ⟨5, 1⟩]).map
      (fun e => e.handRankLevel) = .ok 6 := by
  have h := isStraight_spec [⟨14, 1⟩, ⟨2, 2⟩, ⟨3, 3⟩, ⟨4, 4⟩, ⟨5, 1⟩] (by decide)
  constructor
  · exact h.1.mpr (Or.inr (by decide))
  · obtain ⟨e, he, -, hl⟩ := h.2 (by decide) (by decide) (by decide)
    rw [he]
    simp [Except.map, hl]

/-- Claim C8 witness: the amended statement instantiated on three distinct
cards with `k = 2`: three subsets, none repeated, and `k = 4 > 3` yields
none. -/
theorem getCombinations_spec_witness :
    (getCombinations [(⟨2, 1⟩ : CardData), ⟨3, 2⟩, ⟨4, 3⟩] 2).length = Nat.choose 3 2 ∧
    (getCombinations [(⟨2, 1⟩ : CardData), ⟨3, 2⟩, ⟨4, 3⟩] 2).Nodup ∧
    getCombinations [(⟨2, 1⟩ : CardData), ⟨3, 2⟩, ⟨4, 3⟩] 4 = [] :=
  ⟨(getCombinations_spec [⟨2, 1⟩, ⟨3, 2⟩, ⟨4, 3⟩] 2).1,
   (getCombinations_spec [⟨2, 1⟩, ⟨3, 2⟩, ⟨4, 3⟩] 2).2.2.1 (by decide),
   (getCombinations_spec [⟨2, 1⟩, ⟨3, 2⟩, ⟨4, 3⟩] 4).2.2.2.1 (by decide)⟩

/-! ## Claim C2: winner aggregation and suit sensitivity -/

/-- The comparison against a fixed left hand depends only on the sorted rank
sequence and the head suit priority of the right hand. -/
theorem compareHandValues_congr (t p q : List CardData)
    (hr : cardRanks (sortCardsByRank p) = cardRanks (sortCardsByRank q))
    (hs : headSuitOrder p = headSuitOrder q) :
    compareHandValues t p = compareHandValues t q := by
  have hlen : (sortCardsByRank p).length = (sortCardsByRank q).length := by
    have := congrArg List.length hr
    simpa [cardRanks] using this
  simp only [compareHandValues]
  rw [hr]
  rcases hw : walkRanks (cardRanks (sortCardsByRank t)) (cardRanks (sortCardsByRank q)) with _ | v
  · simp only [headSuitOrder] at hs
    rcases hp : sortCardsByRank p with _ | ⟨cp, restp⟩ <;>
      rcases hq : sortCardsByRank q with _ | ⟨cq, restq⟩
    all_goals try rfl
    all_goals try (rw [hp, hq] at hlen)
    all_goals try (simp at hlen)
    have hs' : suitOrder cp.suit = suitOrder cq.suit := by
      try rw [hp, hq] at hs
      exact hs
    rcases ht : sortCardsByRank t with _ | ⟨ct, restt⟩
    · rfl
    · show (if ct.suit ≠ cp.suit then suitOrder ct.suit - suitOrder cp.suit else 0) =
        (if ct.suit ≠ cq.suit then suitOrder ct.suit - suitOrder cq.suit else 0)
      by_cases h1 : ct.suit = cp.suit <;> by_cases h2 : ct.suit = cq.suit
      · rw [if_neg (fun h => h h1), if_neg (fun h => h h2)]
      · rw [if_neg (fun h => h h1), if_pos h2]
        rw [← h1] at hs'
        omega
      · rw [if_pos h1, if_neg (fun h => h h2)]
        rw [← h2] at hs'
        omega
      · rw [if_pos h1, if_pos h2]
        omega
  · rfl

/-- A zero comparison between equal-length hands pins down equal sorted rank
sequences and equal head suit priorities. -/
theorem compareHandValues_zero_parts (p q : List CardData)
    (hlen : p.length = q.length)
    (hz : compareHandValues p q = 0) :
    cardRanks (sortCardsByRank p) = cardRanks (sortCardsByRank q) ∧
    headSuitOrder p = headSuitOrder q := by
  have hlen' : (cardRanks (sortCardsByRank p)).length =
      (cardRanks (sortCardsByRank q)).length := by
    simp [cardRanks, length_sortCardsByRank, hlen]
  simp only [compareHandValues] at hz
  rcases hw : walkRanks (cardRanks (sortCardsByRank p))
      (cardRanks (sortCardsByRank q)) with _ | v
  · rw [hw] at hz
    have heq := (walkRanks_none_iff _ _ hlen').mp hw
    refine ⟨heq, ?_⟩
    simp only [headSuitOrder]
    rcases hp : sortCardsByRank p with _ | ⟨cp, restp⟩ <;>
      rcases hq : sortCardsByRank q with _ | ⟨cq, restq⟩
    all_goals try rfl
    all_goals try (rw [hp, hq] at heq; simp [cardRanks] at heq)
    have hz' : (if cp.suit ≠ cq.suit then suitOrder cp.suit - suitOrder cq.suit
        else 0) = 0 := by
      try rw [hp, hq] at hz
      exact hz
    show suitOrder cp.suit = suitOrder cq.suit
    by_cases hsuit : cp.suit = cq.suit
    · rw [hsuit]
    · rw [if_pos hsuit] at hz'
      omega
  · rw [hw] at hz
    rcases walkRanks_some hw with hv | hv <;> subst hv <;> cases hz

/-- Unfolds a successful winner evaluation to the filter over the sorted
player results. -/
theorem evaluateWinners_ok {players : List PlayerHand} {results : List PlayerResult}
    {w : WinnerResult}
    (hres : playerResultsOf players = .ok results)
    (hw : evaluateWinners players = .ok w) :
    w.winners = winnersOf (sortPlayerResults results) := by
  unfold evaluateWinners at hw
  by_cases hp : (players.length == 0) = true
  · rw [if_pos hp] at hw
    cases hw
  · rw [if_neg hp, hres] at hw
    cases hw
    rfl

/-- Membership in the winner list of a non-empty sorted result list. -/
theorem mem_winnersOf_cons {top : PlayerResult} {tail : List PlayerResult}
    {r : PlayerResult} :
    r ∈ winnersOf (top :: tail) ↔ r ∈ top :: tail ∧
      (r.handRank.handRankLevel = top.handRank.handRankLevel ∧
        compareHandValues top.bestCombineCards r.bestCombineCards = 0) := by
  simp only [winnersOf, List.mem_filter, Bool.and_eq_true, beq_iff_eq, decide_eq_true_eq]

/-- The sort of the player results permutes them. -/
theorem sortPlayerResults_perm (results : List PlayerResult) :
    (sortPlayerResults results).Perm results :=
  List.perm_insertionSort _ results

/-- Claim C2 counterexample: two players hold flushes with the identical rank
sequence `14 12 10 8 6` but in different suits (1 vs 2); the suit fall-back of
the comparator is nonzero, so the winner filter keeps a single player —
`winCount = 1`, not the split pot the claim demands for identical rank
sequences "regardless of the suits". -/
theorem evaluateWinners_suit_sensitive :
    cardRanks (sortCardsByRank [⟨14, 1⟩, ⟨12, 1⟩, ⟨10, 1⟩, ⟨8, 1⟩, ⟨6, 1⟩]) =
      cardRanks (sortCardsByRank [⟨14, 2⟩, ⟨12, 2⟩, ⟨10, 2⟩, ⟨8, 2⟩, ⟨6, 2⟩]) ∧
    (getBestHandCombination [⟨14, 1⟩, ⟨12, 1⟩, ⟨10, 1⟩, ⟨8, 1⟩, ⟨6, 1⟩]).map
      (fun r => r.handRankLevel) = .ok 5 ∧
    (getBestHandCombination [⟨14, 2⟩, ⟨12, 2⟩, ⟨10, 2⟩, ⟨8, 2⟩, ⟨6, 2⟩]).map
      (fun r => r.handRankLevel) = .ok 5 ∧
    (evaluateWinners
        [⟨"A", [⟨14, 1⟩, ⟨12, 1⟩, ⟨10, 1⟩, ⟨8, 1⟩, ⟨6, 1⟩]⟩,
         ⟨"B", [⟨14, 2⟩, ⟨12, 2⟩, ⟨10, 2⟩, ⟨8, 2⟩, ⟨6, 2⟩]⟩]).map
      (fun w => w.winCount) = .ok 1 := by decide

/-- Claim C2 (amended): in winner aggregation, two players whose best
five-card hands (of equal length) share the hand-rank level and compare equal
under `compareHandValues` — identical rank-descending rank sequences AND equal
suit priority of the sorted-highest card — stand or fall together: one is in
the winner set exactly when the other is.  Identical rank sequences alone do
not suffice; with different highest-card suits the suit fall-back eliminates
one of them (see the counterexample). -/
theorem evaluateWinners_tie_iff (players : List PlayerHand)
    (results : List PlayerResult) (w : WinnerResult) (p q : PlayerResult)
    (hres : playerResultsOf players = .ok results)
    (hw : evaluateWinners players = .ok w)
    (hp : p ∈ results) (hq : q ∈ results)
    (hlen : p.bestCombineCards.length = q.bestCombineCards.length)
    (hlevel : p.handRank.handRankLevel = q.handRank.handRankLevel)
    (hcmp : compareHandValues p.bestCombineCards q.bestCombineCards = 0) :
    (p ∈ w.winners ↔ q ∈ w.winners) := by
  obtain ⟨hr, hs⟩ := compareHandValues_zero_parts _ _ hlen hcmp
  have hwin := evaluateWinners_ok hres hw
  have hpmem : p ∈ sortPlayerResults results := (sortPlayerResults_perm results).mem_iff.mpr hp
  have hqmem : q ∈ sortPlayerResults results := (sortPlayerResults_perm results).mem_iff.mpr hq
  rcases hsort : sortPlayerResults results with _ | ⟨top, tail⟩
  · rw [hsort] at hpmem
    simp at hpmem
  · rw [hsort] at hpmem hqmem
    rw [hwin, hsort, mem_winnersOf_cons, mem_winnersOf_cons]
    constructor
    · rintro ⟨-, hlv, hcz⟩
      refine ⟨hqmem, by omega, ?_⟩
      rw [← compareHandValues_congr top.bestCombineCards p.bestCombineCards
        q.bestCombineCards hr hs]
      exact hcz
    · rintro ⟨-, hlv, hcz⟩
      refine ⟨hpmem, by omega, ?_⟩
      rw [compareHandValues_congr top.bestCombineCards p.bestCombineCards
        q.bestCombineCards hr hs]
      exact hcz

/-- Claim C2 witness: two players holding card-identical flushes; the tie
equivalence instantiated on the concrete evaluation (both are winners,
`winCount = 2`). -/
theorem evaluateWinners_tie_iff_witness :
    ((⟨"A", [⟨14, 1⟩, ⟨12, 1⟩, ⟨10, 1⟩, ⟨8, 1⟩, ⟨6, 1⟩],
        [⟨14, 1⟩, ⟨12, 1⟩, ⟨10, 1⟩, ⟨8, 1⟩, ⟨6, 1⟩], ⟨"Flush", 5⟩⟩ : PlayerResult) ∈
      (WinnerResult.mk 2
        [⟨"A", [⟨14, 1⟩, ⟨12, 1⟩, ⟨10, 1⟩, ⟨8, 1⟩, ⟨6, 1⟩],
          [⟨14, 1⟩, ⟨12, 1⟩, ⟨10, 1⟩, ⟨8, 1⟩, ⟨6, 1⟩], ⟨"Flush", 5⟩⟩,
         ⟨"B", [⟨14, 1⟩, ⟨12, 1⟩, ⟨10, 1⟩, ⟨8, 1⟩, ⟨6, 1⟩],
          [⟨14, 1⟩, ⟨12, 1⟩, ⟨10, 1⟩, ⟨8, 1⟩, ⟨6, 1⟩], ⟨"Flush", 5⟩⟩]).winners ↔
     (⟨"B", [⟨14, 1⟩, ⟨12, 1⟩, ⟨10, 1⟩, ⟨8, 1⟩, ⟨6, 1⟩],
        [⟨14, 1⟩, ⟨12, 1⟩, ⟨10, 1⟩, ⟨8, 1⟩, ⟨6, 1⟩], ⟨"Flush", 5⟩⟩ : PlayerResult) ∈
      (WinnerResult.mk 2
        [⟨"A", [⟨14, 1⟩, ⟨12, 1⟩, ⟨10, 1⟩, ⟨8, 1⟩, ⟨6, 1⟩],
          [⟨14, 1⟩, ⟨12, 1⟩, ⟨10, 1⟩, ⟨8, 1⟩, ⟨6, 1⟩], ⟨"Flush", 5⟩⟩,
         ⟨"B", [⟨14, 1⟩, ⟨12, 1⟩, ⟨10, 1⟩, ⟨8, 1⟩, ⟨6, 1⟩],
          [⟨14, 1⟩, ⟨12, 1⟩, ⟨10, 1⟩, ⟨8, 1⟩, ⟨6, 1⟩], ⟨"Flush", 5⟩⟩]).winners) :=
  evaluateWinners_tie_iff
    [⟨"A", [⟨14, 1⟩, ⟨12, 1⟩, ⟨10, 1⟩, ⟨8, 1⟩, ⟨6, 1⟩]⟩,
     ⟨"B", [⟨14, 1⟩, ⟨12, 1⟩, ⟨10, 1⟩, ⟨8, 1⟩, ⟨6, 1⟩]⟩]
    [⟨"A", [⟨14, 1⟩, ⟨12, 1⟩, ⟨10, 1⟩, ⟨8, 1⟩, ⟨6, 1⟩],
      [⟨14, 1⟩, ⟨12, 1⟩, ⟨10, 1⟩, ⟨8, 1⟩, ⟨6, 1⟩], ⟨"Flush", 5⟩⟩,
     ⟨"B", [⟨14, 1⟩, ⟨12, 1⟩, ⟨10, 1⟩, ⟨8, 1⟩, ⟨6, 1⟩],
      [⟨14, 1⟩, ⟨12, 1⟩, ⟨10, 1⟩, ⟨8, 1⟩, ⟨6, 1⟩], ⟨"Flush", 5⟩⟩]
    ⟨2, [⟨"A", [⟨14, 1⟩, ⟨12, 1⟩, ⟨10, 1⟩, ⟨8, 1⟩, ⟨6, 1⟩],
      [⟨14, 1⟩, ⟨12, 1⟩, ⟨10, 1⟩, ⟨8, 1⟩, ⟨6, 1⟩], ⟨"Flush", 5⟩⟩,
     ⟨"B", [⟨14, 1⟩, ⟨12, 1⟩, ⟨10, 1⟩, ⟨8, 1⟩, ⟨6, 1⟩],
      [⟨14, 1⟩, ⟨12, 1⟩, ⟨10, 1⟩, ⟨8, 1⟩, ⟨6, 1⟩], ⟨"Flush", 5⟩⟩]⟩
    ⟨"A", [⟨14, 1⟩, ⟨12, 1⟩, ⟨10, 1⟩, ⟨8, 1⟩, ⟨6, 1⟩],
      [⟨14, 1⟩, ⟨12, 1⟩, ⟨10, 1⟩, ⟨8, 1⟩, ⟨6, 1⟩], ⟨"Flush", 5⟩⟩
    ⟨"B", [⟨14, 1⟩, ⟨12, 1⟩, ⟨10, 1⟩, ⟨8, 1⟩, ⟨6, 1⟩],
      [⟨14, 1⟩, ⟨12, 1⟩, ⟨10, 1⟩, ⟨8, 1⟩, ⟨6, 1⟩], ⟨"Flush", 5⟩⟩
    (by decide) (by decide) (by decide) (by decide) (by decide) (by decide) (by decide)


end Poker
